import Mathlib

/-!
Verification of the Vault50 deposit-and-draw bot core (src/deposit-bot.js).

The JavaScript source is shallowly embedded: pure computations become Lean
functions over `ℚ` (JS numbers are modelled as exact rationals), the mutable
globals (`rounds`, `grand`, `seen`, the config variables and the per-watcher
cursors) become an explicit state record, and each watcher tick becomes a
fold of a per-candidate step function over the tick's externally supplied
inputs (the candidate transactions, the cached prices, the fairness seeds).
Network I/O and Telegram messaging have no effect on the modelled state and
are dropped; every other statement of the source is carried over.
-/

namespace Vault50

/-- Ledger families, source constant `COINS = ['BTC','ETH','BNB','SOL']`
(deposit-bot.js line 151). -/
inductive Coin where
  | BTC | ETH | BNB | SOL
deriving DecidableEq, Repr, Inhabited

/-- Order of the `COINS` array in the source (line 151); `buildTicketBag`
iterates the rounds in this order. -/
def COINS : List Coin := [Coin.BTC, Coin.ETH, Coin.BNB, Coin.SOL]

/-- One accepted entry, source object literal
`{ from, amount, usd, tickets, txid, ts }` passed to `addEntry`
(lines 277, 336, 403).  The JS field `from` is a Lean keyword and is
renamed `fromAddr`. -/
structure Entry where
  fromAddr : String
  amount : ℚ
  usd : ℚ
  tickets : ℤ
  txid : String
  ts : ℕ
deriving DecidableEq, Repr, Inhabited

/-- A per-coin round, source object literal
`{ id, entries, startedAt, winner, proof }` (lines 152, 157).  `winner` and
`proof` are created `null` and never written anywhere in the source. -/
structure Round where
  id : ℕ
  entries : List Entry
  startedAt : ℕ
  winner : Option Entry
  proof : Option String
deriving DecidableEq, Repr, Inhabited

/-- One ticket of the draw bag, source `{ symbol: s, ...e }` (line 170). -/
structure BagItem where
  symbol : Coin
  entry : Entry
deriving DecidableEq, Repr, Inhabited

/-- Fairness seed fingerprints, source return value of `fetchChainSeeds`
`{ btcHead, ethHead, solSlot }` (line 184). -/
structure SeedParts where
  btcHead : String
  ethHead : String
  solSlot : String
deriving DecidableEq, Repr, Inhabited

/-- The record the draw stores in `global.__usd_round`
`{ seedParts, bagLen, hash, winner, startedAt }` (line 227). -/
structure DrawRecord where
  seedParts : SeedParts
  bagLen : ℕ
  hash : String
  winner : BagItem
  startedAt : ℕ
deriving DecidableEq, Repr, Inhabited

/-- The mutable globals of the bot gathered into one record: `rounds` and
`grand.usdTotal` (lines 152-153), the dedup set `seen` (line 246, modelled
as a list of txids), the four admin-mutable config variables
`ENTRY_USD`, `ROUND_TARGET_USD`, `ENTRY_TOL`, `PAYOUT_PCT` (lines 45-48)
and `global.__usd_round` (line 227). -/
structure BotState where
  rounds : Coin → Round
  usdTotal : ℚ
  seen : List String
  entryUsd : ℚ
  targetUsd : ℚ
  entryTol : ℚ
  payoutPct : ℚ
  lastDraw : Option DrawRecord

/-- Static configuration from the environment: the watched addresses `ADDR`
(lines 20-25) and the confirmation thresholds `CONF` (lines 34-38).
`confSOL` (`CONFIRMS_SOL`, line 37) is read from the environment but never
consulted by any code path of the source. -/
structure Config where
  addrBTC : String
  addrETH : String
  addrBNB : String
  addrSOL : String
  confBTC : ℤ
  confEVM : ℤ
  confSOL : ℤ

/-- JS `Math.round`: round half towards positive infinity. -/
def jround (q : ℚ) : ℤ := ⌊q + 1/2⌋

/-- JS `x.toFixed(2)` followed by `Number(...)`: the value rounded to two
decimals (ties towards positive infinity, as the `toFixed` spec picks the
larger candidate). -/
def round2 (q : ℚ) : ℚ := (jround (q * 100) : ℚ) / 100

/-- Source `toUSD` (line 135):
`const p = px[symbol] || 0; return Number((amount * p).toFixed(2));`. -/
def toUSD (symbol : Coin) (amount : ℚ) (px : Coin → ℚ) : ℚ :=
  round2 (amount * px symbol)

/-- Source `ticketsForUSD` (lines 136-148), the two-tier accrual policy. -/
def ticketsForUSD (usd entryUsd tol : ℚ) : ℤ :=
  if usd < entryUsd * (1 - tol) then 0
  else
    let raw := usd / entryUsd
    let nearest := jround raw
    if |usd - (nearest : ℚ) * entryUsd| ≤ entryUsd * tol then max 1 nearest
    else
      let flo := ⌊raw⌋
      if 1 ≤ flo then
        if usd - (flo : ℚ) * entryUsd ≤ entryUsd * tol then flo else 0
      else 0

/-- Source `newRoundAll` (lines 155-160): every coin gets a fresh round with
incremented id and empty entries, and the aggregate total is zeroed. -/
def newRoundAll (now : ℕ) (st : BotState) : BotState :=
  { st with
    rounds := fun c =>
      { id := (st.rounds c).id + 1, entries := [], startedAt := now,
        winner := none, proof := none },
    usdTotal := 0 }

/-- Source `addEntry` (lines 161-164): append to the coin's open round and
add the entry's usd amount to `grand.usdTotal`. -/
def addEntry (symbol : Coin) (entry : Entry) (st : BotState) : BotState :=
  { st with
    rounds := fun c =>
      if c = symbol then
        { st.rounds c with entries := (st.rounds c).entries ++ [entry] }
      else st.rounds c,
    usdTotal := st.usdTotal + entry.usd }

/-- Source `reachedUsdTarget` (line 165): `grand.usdTotal >= ROUND_TARGET_USD`. -/
def reachedUsdTarget (st : BotState) : Bool :=
  decide (st.targetUsd ≤ st.usdTotal)

/-- Source `buildTicketBag` (lines 166-174): for every coin in `COINS` order,
every entry of its open round repeated `tickets` times. -/
def buildTicketBag (st : BotState) : List BagItem :=
  COINS.flatMap fun s =>
    (st.rounds s).entries.flatMap fun e =>
      List.replicate e.tickets.toNat { symbol := s, entry := e }

/-! SHA-256 over byte lists, as used by the source's
`crypto.createHash('sha256').update(seedMaterial).digest('hex')`
(line 199).  Node hashes the UTF-8 bytes of the string and renders the
32-byte digest as 64 lowercase hex characters. -/

/-- The 32-bit word modulus. -/
def m32 : ℕ := 4294967296

/-- Right rotation of a 32-bit word. -/
def rotr (n x : ℕ) : ℕ := ((x >>> n) ||| (x <<< (32 - n))) % m32

/-- The SHA-256 choose function `Ch(x,y,z)`; bitwise not is xor with the
32-bit all-ones mask. -/
def ch (x y z : ℕ) : ℕ := (x &&& y) ^^^ ((x ^^^ 4294967295) &&& z)

/-- The SHA-256 majority function `Maj(x,y,z)`. -/
def maj (x y z : ℕ) : ℕ := ((x &&& y) ^^^ (x &&& z)) ^^^ (y &&& z)

/-- Big sigma-0. -/
def bigSigma0 (x : ℕ) : ℕ := ((rotr 2 x) ^^^ (rotr 13 x)) ^^^ (rotr 22 x)

/-- Big sigma-1. -/
def bigSigma1 (x : ℕ) : ℕ := ((rotr 6 x) ^^^ (rotr 11 x)) ^^^ (rotr 25 x)

/-- Small sigma-0. -/
def smallSigma0 (x : ℕ) : ℕ := ((rotr 7 x) ^^^ (rotr 18 x)) ^^^ (x >>> 3)

/-- Small sigma-1. -/
def smallSigma1 (x : ℕ) : ℕ := ((rotr 17 x) ^^^ (rotr 19 x)) ^^^ (x >>> 10)

/-- The 64 SHA-256 round constants. -/
def kList : List ℕ :=
  [1116352408, 1899447441, 3049323471, 3921009573,
   961987163, 1508970993, 2453635748, 2870763221,
   3624381080, 310598401, 607225278, 1426881987,
   1925078388, 2162078206, 2614888103, 3248222580,
   3835390401, 4022224774, 264347078, 604807628,
   770255983, 1249150122, 1555081692, 1996064986,
   2554220882, 2821834349, 2952996808, 3210313671,
   3336571891, 3584528711, 113926993, 338241895,
   666307205, 773529912, 1294757372, 1396182291,
   1695183700, 1986661051, 2177026350, 2456956037,
   2730485921, 2820302411, 3259730800, 3345764771,
   3516065817, 3600352804, 4094571909, 275423344,
   430227734, 506948616, 659060556, 883997877,
   958139571, 1322822218, 1537002063, 1747873779,
   1955562222, 2024104815, 2227730452, 2361852424,
   2428436474, 2756734187, 3204031479, 3329325298]

/-- The 8 initial SHA-256 hash words. -/
def initHash : List ℕ :=
  [1779033703, 3144134277, 1013904242, 2773480762,
   1359893119, 2600822924, 528734635, 1541459225]

/-- Big-endian 8-byte encoding of a natural number (the length field of the
SHA-256 padding). -/
def be8 (n : ℕ) : List ℕ := (List.range 8).map fun i => (n >>> (56 - 8 * i)) % 256

/-- SHA-256 padding: append `0x80`, zeros to 56 mod 64, then the bit length. -/
def padMessage (msg : List ℕ) : List ℕ :=
  let len := msg.length
  msg ++ [128] ++ List.replicate ((64 + 56 - (len + 1) % 64) % 64) 0 ++ be8 (len * 8)

/-- Split a list into 64-element chunks; the fuel is an upper bound on the
chunk count (each chunk consumes at least one element, so the list length
suffices). -/
def toChunksAux : ℕ → List ℕ → List (List ℕ)
  | 0, _ => []
  | _, [] => []
  | fuel + 1, l => (l.take 64) :: toChunksAux fuel (l.drop 64)

/-- Split a list into 64-element chunks. -/
def toChunks (l : List ℕ) : List (List ℕ) :=
  toChunksAux l.length l

/-- The 16 big-endian words of a 64-byte chunk. -/
def chunkWords (chunk : List ℕ) : List ℕ :=
  (List.range 16).map fun i =>
    chunk.getD (4 * i) 0 * 16777216 + chunk.getD (4 * i + 1) 0 * 65536 +
    chunk.getD (4 * i + 2) 0 * 256 + chunk.getD (4 * i + 3) 0

/-- One extension step of the SHA-256 message schedule. -/
def extendStep (ws : List ℕ) : List ℕ :=
  let n := ws.length
  ws ++ [(smallSigma1 (ws.getD (n - 2) 0) + ws.getD (n - 7) 0 +
          smallSigma0 (ws.getD (n - 15) 0) + ws.getD (n - 16) 0) % m32]

/-- The full 64-word message schedule of a chunk. -/
def msgSchedule (chunk : List ℕ) : List ℕ :=
  (List.range 48).foldl (fun ws _ => extendStep ws) (chunkWords chunk)

/-- The eight SHA-256 working registers. -/
structure Regs where
  ra : ℕ
  rb : ℕ
  rc : ℕ
  rd : ℕ
  re : ℕ
  rf : ℕ
  rg : ℕ
  rh : ℕ

/-- One SHA-256 compression round. -/
def roundStep (ws : List ℕ) (r : Regs) (i : ℕ) : Regs :=
  let t1 := (r.rh + bigSigma1 r.re + ch r.re r.rf r.rg + kList.getD i 0 + ws.getD i 0) % m32
  let t2 := (bigSigma0 r.ra + maj r.ra r.rb r.rc) % m32
  ⟨(t1 + t2) % m32, r.ra, r.rb, r.rc, (r.rd + t1) % m32, r.re, r.rf, r.rg⟩

/-- Compress one 64-byte chunk into the running hash state. -/
def compressChunk (hs : List ℕ) (chunk : List ℕ) : List ℕ :=
  let ws := msgSchedule chunk
  let r0 : Regs := ⟨hs.getD 0 0, hs.getD 1 0, hs.getD 2 0, hs.getD 3 0,
                    hs.getD 4 0, hs.getD 5 0, hs.getD 6 0, hs.getD 7 0⟩
  let r := (List.range 64).foldl (roundStep ws) r0
  [(hs.getD 0 0 + r.ra) % m32, (hs.getD 1 0 + r.rb) % m32,
   (hs.getD 2 0 + r.rc) % m32, (hs.getD 3 0 + r.rd) % m32,
   (hs.getD 4 0 + r.re) % m32, (hs.getD 5 0 + r.rf) % m32,
   (hs.getD 6 0 + r.rg) % m32, (hs.getD 7 0 + r.rh) % m32]

/-- The eight 32-bit digest words of a byte message. -/
def sha256Words (msg : List ℕ) : List ℕ :=
  (toChunks (padMessage msg)).foldl compressChunk initHash

/-- A lowercase hex digit character. -/
def hexDigitChar (n : ℕ) : Char :=
  if n < 10 then Char.ofNat (48 + n) else Char.ofNat (87 + n)

/-- A 32-bit word as 8 lowercase hex characters. -/
def toHexWord (w : ℕ) : String :=
  String.mk ((List.range 8).map fun i => hexDigitChar ((w >>> (28 - 4 * i)) &&& 15))

/-- The 64-character lowercase hex digest of a byte message. -/
def sha256Hex (msg : List ℕ) : String :=
  String.join ((sha256Words msg).map toHexWord)

/-- The UTF-8 encoding of one character. -/
def utf8Bytes (c : Char) : List ℕ :=
  let n := c.toNat
  if n < 128 then [n]
  else if n < 2048 then [192 + n / 64, 128 + n % 64]
  else if n < 65536 then [224 + n / 4096, 128 + (n / 64) % 64, 128 + n % 64]
  else [240 + n / 262144, 128 + (n / 4096) % 64, 128 + (n / 64) % 64, 128 + n % 64]

/-- The UTF-8 bytes of a string, as Node's `hash.update(string)` consumes. -/
def strBytes (s : String) : List ℕ :=
  s.toList.flatMap utf8Bytes

/-- Hex digest of a string, source
`crypto.createHash('sha256').update(seedMaterial).digest('hex')` (line 199). -/
def sha256HexOfString (s : String) : String := sha256Hex (strBytes s)

/-- Numeric value of one hex character (JS `parseInt` base 16 digit). -/
def hexCharVal (c : Char) : ℕ :=
  if 48 ≤ c.toNat ∧ c.toNat ≤ 57 then c.toNat - 48
  else if 97 ≤ c.toNat ∧ c.toNat ≤ 102 then c.toNat - 87
  else if 65 ≤ c.toNat ∧ c.toNat ≤ 70 then c.toNat - 55
  else 0

/-- The exact mathematical integer denoted by an all-hex-digit string read
big-endian, base 16. -/
def parseHexNat (s : String) : ℕ :=
  s.toList.foldl (fun acc c => acc * 16 + hexCharVal c) 0

/-- Position of the highest set bit (base-2 logarithm rounded down) of a
positive number below `2^65`, computed by a bounded scan. -/
def natLog2Below64 (n : ℕ) : ℕ :=
  (List.range 64).foldl (fun acc i => if 1 <<< (i + 1) ≤ n then i + 1 else acc) 0

/-- Rounding of a natural number to the nearest IEEE-754 double (53-bit
significand, ties to even).  Integers below `2^53` are exact; above, the
low `bitlength - 53` bits are rounded away.  This is what JS number
conversion does to the exact integer a numeric literal or `parseInt`
denotes. -/
def roundToDouble53 (n : ℕ) : ℕ :=
  if n < 9007199254740992 then n
  else
    let k := natLog2Below64 n - 52
    let q := n >>> k
    let r := n % (1 <<< k)
    let half := 1 <<< (k - 1)
    let q2 := if half < r then q + 1
      else if r < half then q
      else if q % 2 = 1 then q + 1 else q
    q2 <<< k

/-- JS `parseInt(s, 16)` on an all-hex-digit string, as applied to the first
16 digest characters in `runUsdDraw` (line 200): the exact integer the
digits denote, rounded to the nearest double — 16 hex digits reach `2^64`,
well above the 53-bit precision of a JS number, so the rounding is almost
always lossy. -/
def parseHexJS (s : String) : ℕ :=
  roundToDouble53 (parseHexNat s)

/-! Serialization of the seed material, source
`JSON.stringify({ seed: seedParts, txids: ..., totalUsd: grand.usdTotal.toFixed(2) })`
(lines 194-198).  `JSON.stringify` emits object keys in insertion order and
escapes `"`, `\` and control characters inside strings. -/

/-- JSON escaping of one character, as `JSON.stringify` performs on string
values. -/
def jsonEscapeChar (c : Char) : String :=
  let n := c.toNat
  if n = 34 then "\\\""
  else if n = 92 then "\\\\"
  else if n = 8 then "\\b"
  else if n = 12 then "\\f"
  else if n = 10 then "\\n"
  else if n = 13 then "\\r"
  else if n = 9 then "\\t"
  else if n < 32 then "\\u00" ++ String.mk [hexDigitChar (n / 16), hexDigitChar (n % 16)]
  else String.singleton c

/-- JSON escaping of a string body. -/
def jsonEscape (s : String) : String :=
  String.join (s.toList.map jsonEscapeChar)

/-- A JSON string literal. -/
def jsonStr (s : String) : String := "\"" ++ jsonEscape s ++ "\""

/-- Comma-join of already-rendered JSON values. -/
def joinComma : List String → String
  | [] => ""
  | [x] => x
  | x :: xs => x ++ "," ++ joinComma xs

/-- Two-digit rendering of a natural number below 100. -/
def pad2 (n : ℕ) : String :=
  if n < 10 then "0" ++ toString n else toString n

/-- JS `x.toFixed(2)`: the value rounded to two decimals rendered with
exactly two fraction digits. -/
def toFixed2 (q : ℚ) : String :=
  let n := jround (q * 100)
  if n < 0 then "-" ++ toString ((-n).toNat / 100) ++ "." ++ pad2 ((-n).toNat % 100)
  else toString (n.toNat / 100) ++ "." ++ pad2 (n.toNat % 100)

/-- The seed material string of `runUsdDraw` (lines 194-198):
`JSON.stringify({ seed: { btcHead, ethHead, solSlot }, txids, totalUsd })`
where `totalUsd` is the string `grand.usdTotal.toFixed(2)`. -/
def seedMaterialString (sp : SeedParts) (txids : List String) (total : ℚ) : String :=
  "\x7b\"seed\":\x7b\"btcHead\":" ++ jsonStr sp.btcHead ++
  ",\"ethHead\":" ++ jsonStr sp.ethHead ++
  ",\"solSlot\":" ++ jsonStr sp.solSlot ++
  "\x7d,\"txids\":[" ++ joinComma (txids.map jsonStr) ++
  "],\"totalUsd\":" ++ jsonStr (toFixed2 total) ++ "\x7d"

/-- Source `runUsdDraw` (lines 189-228).  If the ticket bag is empty the
function returns with no effect.  Otherwise it hashes the seed material,
derives the winning index as `parseInt(h.slice(0, 16), 16) % bag.length`
(line 200) — the parsed value is a JS double, i.e. the exact 64-bit
integer rounded to 53-bit precision, and `%` on these integer-valued
doubles is exact — and stores the draw record in `global.__usd_round`
(line 227).  It posts the announcement (I/O only) and — notably — does NOT
rotate the round: `newRoundAll` is not called anywhere in it.  The seed
parts come from `fetchChainSeeds` and are an input here; `payoutUsd`
(line 202) only feeds the announcement text. -/
def runUsdDraw (sp : SeedParts) (now : ℕ) (st : BotState) : BotState :=
  let bag := buildTicketBag st
  if bag = [] then st
  else
    let seedMaterial := seedMaterialString sp (bag.map fun b => b.entry.txid) st.usdTotal
    let h := sha256HexOfString seedMaterial
    let idx := parseHexJS (h.take 16) % bag.length
    let winner := bag.getD idx default
    { st with lastDraw := some ⟨sp, bag.length, h, winner, now⟩ }

/-- Source `finalizeUsdProofManual` (lines 231-243): posts the manual payout
confirmation (I/O only) and then unconditionally calls `newRoundAll()`.
The `symbol`, `txid` and `paidAmount` arguments only feed the message text. -/
def finalizeUsdProofManual (symbol : Coin) (txid : String) (paidAmount : Option ℚ)
    (now : ℕ) (st : BotState) : BotState :=
  newRoundAll now st

/-! The watchers (lines 246-447).  Each tick processes externally fetched
candidates; prices come from the cache (`getPrices`, modelled as a per-tick
price function) and the fairness seeds from `fetchChainSeeds`.  The shared
crediting block of all three watchers — mark seen, convert to USD, compute
tickets, add the entry when tickets are positive, then run the draw when
the target is reached — is factored into `creditDeposit`. -/

/-- The shared crediting block of the three watchers
(BTC lines 270-296, EVM lines 329-355, SOL lines 396-422): add the txid to
`seen`, convert the amount to USD, compute the tickets and append an entry
when they are positive, then run the draw when the round target is reached.
Note `seen.add` happens BEFORE the price lookup and the tickets check. -/
def creditDeposit (sym : Coin) (fromAddr : String) (amount : ℚ) (txid : String)
    (now : ℕ) (prices : Coin → ℚ) (sp : SeedParts) (st : BotState) : BotState :=
  let st1 := { st with seen := txid :: st.seen }
  let usd := toUSD sym amount prices
  let tk := ticketsForUSD usd st.entryUsd st.entryTol
  let st2 := if 0 < tk then
      addEntry sym { fromAddr := fromAddr, amount := amount, usd := usd,
                     tickets := tk, txid := txid, ts := now } st1
    else st1
  if reachedUsdTarget st2 then runUsdDraw sp now st2 else st2

/-- One output of a BTC transaction as the mempool API returns it
(`scriptpubkey_address`, `value` in satoshi). -/
structure BtcVout where
  scriptpubkeyAddress : String
  value : ℕ
deriving DecidableEq, Repr, Inhabited

/-- One BTC candidate transaction of `pollBTC` (confirmed and mempool lists
combined, lines 251-266): txid, outputs, the boolean `status.confirmed`
flag, and the first input's previous output address. -/
structure BtcTx where
  txid : String
  vout : List BtcVout
  statusConfirmed : Bool
  vinAddr : Option String
deriving DecidableEq, Repr, Inhabited

/-- The outputs of a BTC transaction paying the watched address
(line 264). -/
def btcOuts (watched : String) (tx : BtcTx) : List BtcVout :=
  tx.vout.filter fun v => v.scriptpubkeyAddress = watched

/-- Processing of one BTC candidate inside the `pollBTC` loop
(lines 261-307): skip if seen, skip if no output pays the watched address,
skip if `(status.confirmed ? 1 : 0) < CONF.BTC`, otherwise credit the summed
output value (in BTC). -/
def btcStep (cfg : Config) (prices : Coin → ℚ) (sp : SeedParts) (now : ℕ)
    (st : BotState) (tx : BtcTx) : BotState :=
  if tx.txid ∈ st.seen then st
  else
    let outs := btcOuts cfg.addrBTC tx
    if outs = [] then st
    else if (if tx.statusConfirmed then (1 : ℤ) else 0) < cfg.confBTC then st
    else
      let amtBtc : ℚ := ((outs.map fun v => v.value).sum : ℚ) / 100000000
      creditDeposit Coin.BTC (tx.vinAddr.getD "unknown") amtBtc tx.txid now prices sp st

/-- One tick of `pollBTC` (lines 248-309): nothing when `ADDR.BTC` is empty,
otherwise the first 60 fetched candidates are processed in order.  The
wallet-total queries only feed notifications. -/
def btcTick (cfg : Config) (items : List BtcTx) (prices : Coin → ℚ) (sp : SeedParts)
    (now : ℕ) (st : BotState) : BotState :=
  if cfg.addrBTC = "" then st
  else List.foldl (btcStep cfg prices sp now) st (items.take 60)

/-- One EVM candidate transaction of `makeEvmWatcher` (lines 322-336):
recipient (absent for contract creations), hash, value in wei, sender. -/
structure EvmTx where
  toA : Option String
  hash : String
  value : ℕ
  fromA : Option String
deriving DecidableEq, Repr, Inhabited

/-- Processing of one EVM transaction inside the block loop
(lines 322-367): skip without a recipient, skip when the lowercased
recipient differs from the lowercased watched address, skip if seen,
otherwise credit `formatEther(tx.value)`. -/
def evmStep (label : Coin) (watched : String) (prices : Coin → ℚ) (sp : SeedParts)
    (now : ℕ) (st : BotState) (tx : EvmTx) : BotState :=
  match tx.toA with
  | none => st
  | some toA =>
    if toA.toLower ≠ watched.toLower then st
    else if tx.hash ∈ st.seen then st
    else creditDeposit label (tx.fromA.getD "unknown") ((tx.value : ℚ) / 1000000000000000000)
           tx.hash now prices sp st

/-- The block numbers one EVM tick scans (lines 316-319): after
`if (!lastBlock) lastBlock = tip - 3`, from `max(lastBlock + 1, tip - 6)`
up to `tip - confirmsNeeded + 1` inclusive. -/
def evmScanRange (lastBlock tip conf : ℤ) : List ℤ :=
  let lb := if lastBlock = 0 then tip - 3 else lastBlock
  let fromBn := max (lb + 1) (tip - 6)
  let toBn := tip - conf + 1
  (List.range (toBn + 1 - fromBn).toNat).map fun (i : ℕ) => fromBn + (i : ℤ)

/-- The transactions one EVM tick processes, in block then in-block order. -/
def evmTxs (chain : ℤ → List EvmTx) (lastBlock tip conf : ℤ) : List EvmTx :=
  (evmScanRange lastBlock tip conf).flatMap chain

/-- One tick of an EVM watcher (lines 311-372): nothing when the watched
address is empty; otherwise process the scanned transactions and set the
cursor to `tip - confirmsNeeded + 1` (line 369). -/
def evmTick (label : Coin) (watched : String) (conf : ℤ) (chain : ℤ → List EvmTx)
    (tip : ℤ) (prices : Coin → ℚ) (sp : SeedParts) (now : ℕ)
    (st : BotState) (lastBlock : ℤ) : BotState × ℤ :=
  if watched = "" then (st, lastBlock)
  else (List.foldl (evmStep label watched prices sp now) st (evmTxs chain lastBlock tip conf),
        tip - conf + 1)

/-- One parsed SOL instruction as `getParsedTransaction` returns it
(`parsed.type`, `parsed.info.destination/lamports/source`, lines 391-402). -/
structure SolParsed where
  ptype : String
  destination : String
  lamports : ℕ
  source : Option String
deriving DecidableEq, Repr, Inhabited

/-- One parsed SOL transaction: its instruction list, where `none` stands
for an instruction without a `parsed` field. -/
structure SolTx where
  ixs : List (Option SolParsed)
deriving DecidableEq, Repr, Inhabited

/-- One fetched signature record of `getSignaturesForAddress`
(lines 381-388).  `tx` is the parsed transaction the watcher then fetches
(`none` when `getParsedTransaction` yields no `meta`).  `confirmations` is
present in the RPC response but never read by the source — `pollSOL`
performs no confirmation-depth check and `CONF.SOL` is unused. -/
structure SolSigInfo where
  signature : String
  confirmations : Option ℕ
  tx : Option SolTx
deriving DecidableEq, Repr, Inhabited

/-- The first parsed `transfer` instruction addressed to the watched
account (the inner loop with `break`, lines 391-434). -/
def solFind (watched : String) : List (Option SolParsed) → Option SolParsed
  | [] => none
  | none :: rest => solFind watched rest
  | some p :: rest =>
    if p.ptype = "transfer" ∧ p.destination = watched then some p
    else solFind watched rest

/-- Processing of one SOL signature inside the `pollSOL` loop
(lines 386-436): skip if seen, skip without parsed meta, credit the first
matching transfer instruction's lamports. -/
def solStep (watched : String) (prices : Coin → ℚ) (sp : SeedParts) (now : ℕ)
    (st : BotState) (sig : SolSigInfo) : BotState :=
  if sig.signature ∈ st.seen then st
  else
    match sig.tx with
    | none => st
    | some tx =>
      match solFind watched tx.ixs with
      | none => st
      | some p =>
        creditDeposit Coin.SOL (p.source.getD "unknown") ((p.lamports : ℚ) / 1000000000)
          sig.signature now prices sp st

/-- One tick of `pollSOL` (lines 377-439): nothing when `ADDR.SOL` is empty;
otherwise the fetched signatures are processed oldest-first
(`sigs.slice().reverse()`, line 382) and the cursor jumps to the NEWEST
fetched signature (`if (sigs.length) lastSolSig = sigs[0].signature`,
line 437) whether or not each signature was processed. -/
def solTick (watched : String) (sigs : List SolSigInfo) (prices : Coin → ℚ)
    (sp : SeedParts) (now : ℕ) (st : BotState) (lastSig : Option String) :
    BotState × Option String :=
  if watched = "" then (st, lastSig)
  else (List.foldl (solStep watched prices sp now) st sigs.reverse,
        match sigs with
        | [] => lastSig
        | s0 :: _ => some s0.signature)

/-- The full system state: the bot globals plus the per-watcher cursors
(`lastBlock` of each EVM watcher closure, line 312, and `lastSolSig`,
line 376; `pollBTC` keeps no cursor). -/
structure SysState where
  bot : BotState
  lastBlockETH : ℤ
  lastBlockBNB : ℤ
  lastSolSig : Option String

/-- One scheduled watcher tick together with the external data it consumes:
the fetched candidates, the price cache contents and the fairness seeds. -/
inductive TickInput where
  | btc (items : List BtcTx) (prices : Coin → ℚ) (sp : SeedParts) (now : ℕ)
  | eth (chain : ℤ → List EvmTx) (tip : ℤ) (prices : Coin → ℚ) (sp : SeedParts) (now : ℕ)
  | bnb (chain : ℤ → List EvmTx) (tip : ℤ) (prices : Coin → ℚ) (sp : SeedParts) (now : ℕ)
  | sol (sigs : List SolSigInfo) (prices : Coin → ℚ) (sp : SeedParts) (now : ℕ)

/-- Dispatch one watcher tick (the four `setInterval` callbacks,
lines 442-447). -/
def applyTick (cfg : Config) (s : SysState) : TickInput → SysState
  | .btc items prices sp now => { s with bot := btcTick cfg items prices sp now s.bot }
  | .eth chain tip prices sp now =>
    let r := evmTick Coin.ETH cfg.addrETH cfg.confEVM chain tip prices sp now s.bot s.lastBlockETH
    { s with bot := r.1, lastBlockETH := r.2 }
  | .bnb chain tip prices sp now =>
    let r := evmTick Coin.BNB cfg.addrBNB cfg.confEVM chain tip prices sp now s.bot s.lastBlockBNB
    { s with bot := r.1, lastBlockBNB := r.2 }
  | .sol sigs prices sp now =>
    let r := solTick cfg.addrSOL sigs prices sp now s.bot s.lastSolSig
    { s with bot := r.1, lastSolSig := r.2 }

/-- The initial bot globals (lines 45-48, 152-153, 246): round 1 per coin
with no entries, zero aggregate total, empty seen set, no draw record. -/
def initBot (entryUsd targetUsd entryTol payoutPct : ℚ) : BotState :=
  { rounds := fun _ => { id := 1, entries := [], startedAt := 0, winner := none, proof := none },
    usdTotal := 0, seen := [], entryUsd := entryUsd, targetUsd := targetUsd,
    entryTol := entryTol, payoutPct := payoutPct, lastDraw := none }

/-- The initial system state (cursors zero / unset, lines 312, 376). -/
def initSys (entryUsd targetUsd entryTol payoutPct : ℚ) : SysState :=
  { bot := initBot entryUsd targetUsd entryTol payoutPct,
    lastBlockETH := 0, lastBlockBNB := 0, lastSolSig := none }

/-- Run the system from genesis over a sequence of watcher ticks. -/
def runSystem (cfg : Config) (s0 : SysState) (inputs : List TickInput) : SysState :=
  List.foldl (applyTick cfg) s0 inputs

/-- Source `isAdmin` (line 108): membership of the sender id in `ADMIN_IDS`. -/
def isAdmin (adminIds : List ℤ) (senderId : ℤ) : Bool :=
  decide (senderId ∈ adminIds)

/-- The state-changing chat commands (lines 564-606) with their parsed
payloads.  The numeric payloads carry the value `Number(m[1])` the handler
computes from its regex capture. -/
inductive Cmd where
  | announce (text : String)
  | setentryusd (v : ℚ)
  | settargetusd (v : ℚ)
  | settol (v : ℚ)
  | setpayout (v : ℚ)
  | restartround
  | proofpaid (symbol : Coin) (txid : String) (amount : Option ℚ)

/-- The core-state effect of each command handler (lines 564-606).  Every
handler begins `if (!isAdmin(msg.from.id)) return;`.  `/announce` posts a
message only.  `/setentryusd` stores `Math.max(1, v)` (line 572);
`/settargetusd` stores `Math.max(ENTRY_USD, v)` (line 577); `/settol`
rejects values outside `[0, 0.5]` and stores the value otherwise
(lines 583-584); `/setpayout` stores the value clamped to `[0.10, 1.00]`
(line 589); `/restartround` calls `newRoundAll()` (line 594); `/proofpaid`
calls `finalizeUsdProofManual` (line 604). -/
def handleCmd (adminIds : List ℤ) (senderId : ℤ) (cmd : Cmd) (now : ℕ)
    (st : BotState) : BotState :=
  match cmd with
  | .announce _ => st
  | .setentryusd v =>
    if isAdmin adminIds senderId then { st with entryUsd := max 1 v } else st
  | .settargetusd v =>
    if isAdmin adminIds senderId then { st with targetUsd := max st.entryUsd v } else st
  | .settol v =>
    if isAdmin adminIds senderId then
      if v < 0 ∨ 1/2 < v then st else { st with entryTol := v }
    else st
  | .setpayout v =>
    if isAdmin adminIds senderId then { st with payoutPct := max (1/10) (min 1 v) } else st
  | .restartround =>
    if isAdmin adminIds senderId then newRoundAll now st else st
  | .proofpaid symbol txid amount =>
    if isAdmin adminIds senderId then finalizeUsdProofManual symbol txid amount now st else st

/-- Number of entries carrying a given eventId across all open rounds. -/
def entriesWith (st : BotState) (id : String) : ℕ :=
  (COINS.map fun c => (st.rounds c).entries.countP fun e => e.txid = id).sum

/-- Sum of the usd amounts of all entries of all open rounds. -/
def sumUsd (st : BotState) : ℚ :=
  (COINS.map fun c => ((st.rounds c).entries.map Entry.usd).sum).sum

/-- The exactly-once invariant: every eventId is carried by at most one
entry, and every credited eventId is in the seen set. -/
def ExactlyOnce (st : BotState) : Prop :=
  ∀ id, entriesWith st id ≤ 1 ∧ (0 < entriesWith st id → id ∈ st.seen)

/-- Shape shared by the three per-candidate watcher steps: each either
leaves the state untouched (a guard failed) or runs the common crediting
block on an eventId that is not yet in the seen set. -/
def StepOK {α : Type} (step : BotState → α → BotState) : Prop :=
  ∀ st c, step st c = st ∨
    ∃ sym fr amt id now pr sp, id ∉ st.seen ∧
      step st c = creditDeposit sym fr amt id now pr sp st

/-- The accrual policy as the claim for `ticketsForUSD` words it: 0 below
`entryUsd * (1 - tolerance)`; else `max 1 n` for the rounded ratio `n` when
`|usdAmount - n * entryUsd| ≤ entryUsd * tolerance`; else the floor of the
ratio when that floor is at least 1 and the remainder is within the
tolerance; else 0. -/
def ticketsPolicySpec (usd entryUsd tol : ℚ) : ℤ :=
  if usd < entryUsd * (1 - tol) then 0
  else
    let n := jround (usd / entryUsd)
    if |usd - (n : ℚ) * entryUsd| ≤ entryUsd * tol then max 1 n
    else if 1 ≤ ⌊usd / entryUsd⌋ ∧ usd - (⌊usd / entryUsd⌋ : ℚ) * entryUsd ≤ entryUsd * tol then
      ⌊usd / entryUsd⌋
    else 0

/-! Concrete instances used by witnesses and counterexamples. -/

/-- Example fairness seeds. -/
def spXYZ : SeedParts := ⟨"x", "y", "z"⟩

/-- Example price cache: every symbol quoted at 50 USD. -/
def prAll50 : Coin → ℚ := fun _ => 50

/-- Example price cache during a price outage: every symbol at 0. -/
def prZero : Coin → ℚ := fun _ => 0

/-- Example price cache: every symbol quoted at 1 USD. -/
def prOne : Coin → ℚ := fun _ => 1

/-- Config watching only BTC address `"B"` with threshold 1. -/
def cfgBtc : Config := ⟨"B", "", "", "", 1, 1, 1⟩

/-- Config watching only SOL address `"W"` with `CONFIRMS_SOL = 2`. -/
def cfgSol2 : Config := ⟨"", "", "", "W", 1, 1, 2⟩

/-- A confirmed 1-BTC deposit to the watched address. -/
def txB1 : BtcTx := ⟨"t1", [⟨"B", 100000000⟩], true, some "bob"⟩

/-- An accepted $50 entry. -/
def entA : Entry := ⟨"a", 1, 50, 1, "ta", 0⟩

/-- A second accepted $50 entry. -/
def entB : Entry := ⟨"b", 1, 50, 1, "tb", 0⟩

/-- A state whose BTC round holds two $50 single-ticket entries and whose
aggregate total has reached the $100 target (entry price $50). -/
def stTwoEntries : BotState :=
  { initBot 50 100 (1/10) 1 with
    rounds := fun c =>
      if c = Coin.BTC then ⟨1, [entA, entB], 0, none, none⟩
      else ⟨1, [], 0, none, none⟩,
    usdTotal := 100 }

/-- A fetched SOL signature carrying a parsed 50-SOL transfer to the
watched address, reported with confirmation depth 1. -/
def sigSol1 : SolSigInfo :=
  ⟨"sig1", some 1, some ⟨[some ⟨"transfer", "W", 50000000000, some "alice"⟩]⟩⟩

/-- A fetched SOL signature whose parsed transaction is unavailable
(`getParsedTransaction` returned no `meta`). -/
def sigSolSkip : SolSigInfo := ⟨"sig2", some 1, none⟩

/-- System state after a BTC tick that sees `txB1` during a price outage. -/
def s7a : SysState := applyTick cfgBtc (initSys 50 2000 (1/10) 1) (.btc [txB1] prZero spXYZ 0)

/-- System state after redelivery of `txB1` once the price has recovered. -/
def s7b : SysState := applyTick cfgBtc s7a (.btc [txB1] prAll50 spXYZ 1)

/-- System state after one SOL tick over `[sigSolSkip, sigSol1]`
(newest first, as `getSignaturesForAddress` returns them). -/
def s8 : SysState :=
  applyTick cfgSol2 (initSys 50 2000 (1/10) 1) (.sol [sigSolSkip, sigSol1] prOne spXYZ 0)

/-- A state whose seen set already holds three eventIds. -/
def stSeen : BotState := { initBot 50 2000 (1/10) 1 with seen := ["t1", "h1", "sig1"] }

/-- A 1-ETH deposit to the watched address `"E"`. -/
def txE1 : EvmTx := ⟨some "E", "h1", 1000000000000000000, some "carol"⟩

/-- An unconfirmed 1-BTC deposit to the watched address. -/
def txB2 : BtcTx := ⟨"t2", [⟨"B", 100000000⟩], false, some "bob"⟩

end Vault50




namespace Vault50

/-! Helper lemmas: state effects of the draw and of the crediting block. -/

/-- The draw never changes the seen set. -/
theorem runUsdDraw_seen (sp : SeedParts) (now : ℕ) (st : BotState) :
    (runUsdDraw sp now st).seen = st.seen := by
  unfold runUsdDraw
  by_cases h : buildTicketBag st = [] <;> simp [h]

/-- The draw never changes the rounds. -/
theorem runUsdDraw_rounds (sp : SeedParts) (now : ℕ) (st : BotState) :
    (runUsdDraw sp now st).rounds = st.rounds := by
  unfold runUsdDraw
  by_cases h : buildTicketBag st = [] <;> simp [h]

/-- The draw never changes the aggregate total. -/
theorem runUsdDraw_usdTotal (sp : SeedParts) (now : ℕ) (st : BotState) :
    (runUsdDraw sp now st).usdTotal = st.usdTotal := by
  unfold runUsdDraw
  by_cases h : buildTicketBag st = [] <;> simp [h]

/-- `entriesWith` only reads the rounds. -/
theorem entriesWith_rounds_eq {st st' : BotState} (h : st'.rounds = st.rounds) (id : String) :
    entriesWith st' id = entriesWith st id := by
  unfold entriesWith; rw [h]

/-- Effect of `addEntry` on the per-eventId entry count. -/
theorem entriesWith_addEntry (sym : Coin) (e : Entry) (st : BotState) (id : String) :
    entriesWith (addEntry sym e st) id
      = entriesWith st id + (if e.txid = id then 1 else 0) := by
  cases sym <;>
    simp [entriesWith, addEntry, COINS, List.countP_append, List.countP_cons] <;>
    split <;> omega

/-- Effect of `addEntry` on the usd sum. -/
theorem sumUsd_addEntry (sym : Coin) (e : Entry) (st : BotState) :
    sumUsd (addEntry sym e st) = sumUsd st + e.usd := by
  cases sym <;> simp [sumUsd, addEntry, COINS] <;> ring

/-- A conditional draw keeps the seen set. -/
theorem ite_draw_seen (sp : SeedParts) (now : ℕ) (st : BotState) :
    (if reachedUsdTarget st then runUsdDraw sp now st else st).seen = st.seen := by
  split
  · exact runUsdDraw_seen sp now st
  · rfl

/-- A conditional draw keeps the rounds. -/
theorem ite_draw_rounds (sp : SeedParts) (now : ℕ) (st : BotState) :
    (if reachedUsdTarget st then runUsdDraw sp now st else st).rounds = st.rounds := by
  split
  · exact runUsdDraw_rounds sp now st
  · rfl

/-- A conditional draw keeps the aggregate total. -/
theorem ite_draw_usdTotal (sp : SeedParts) (now : ℕ) (st : BotState) :
    (if reachedUsdTarget st then runUsdDraw sp now st else st).usdTotal = st.usdTotal := by
  split
  · exact runUsdDraw_usdTotal sp now st
  · rfl

/-- A conditional draw keeps every entry count. -/
theorem entriesWith_ite_draw (sp : SeedParts) (now : ℕ) (st : BotState) (id : String) :
    entriesWith (if reachedUsdTarget st then runUsdDraw sp now st else st) id
      = entriesWith st id := by
  split
  · exact entriesWith_rounds_eq (runUsdDraw_rounds sp now st) id
  · rfl

/-- The crediting block pushes exactly the credited eventId onto the seen
set. -/
theorem creditDeposit_seen (sym : Coin) (fr : String) (amt : ℚ) (id : String) (now : ℕ)
    (pr : Coin → ℚ) (sp : SeedParts) (st : BotState) :
    (creditDeposit sym fr amt id now pr sp st).seen = id :: st.seen := by
  simp only [creditDeposit]
  rw [ite_draw_seen]
  split <;> rfl

/-- The crediting block adds one entry for the credited eventId exactly when
the tickets are positive, and no entry for any other eventId. -/
theorem entriesWith_creditDeposit (sym : Coin) (fr : String) (amt : ℚ) (id : String) (now : ℕ)
    (pr : Coin → ℚ) (sp : SeedParts) (st : BotState) (id2 : String) :
    entriesWith (creditDeposit sym fr amt id now pr sp st) id2
      = entriesWith st id2 +
        (if 0 < ticketsForUSD (toUSD sym amt pr) st.entryUsd st.entryTol ∧ id = id2
         then 1 else 0) := by
  simp only [creditDeposit]
  rw [entriesWith_ite_draw]
  split
  next htk =>
    rw [entriesWith_addEntry]
    have h1 : entriesWith { st with seen := id :: st.seen } id2 = entriesWith st id2 := rfl
    rw [h1]
    simp [htk]
  next htk =>
    have h1 : entriesWith { st with seen := id :: st.seen } id2 = entriesWith st id2 := rfl
    rw [h1]
    simp [htk]

/-- The crediting block adds the converted usd amount to the aggregate total
exactly when the tickets are positive. -/
theorem usdTotal_creditDeposit (sym : Coin) (fr : String) (amt : ℚ) (id : String) (now : ℕ)
    (pr : Coin → ℚ) (sp : SeedParts) (st : BotState) :
    (creditDeposit sym fr amt id now pr sp st).usdTotal
      = st.usdTotal +
        (if 0 < ticketsForUSD (toUSD sym amt pr) st.entryUsd st.entryTol
         then toUSD sym amt pr else 0) := by
  simp only [creditDeposit]
  rw [ite_draw_usdTotal]
  split
  next htk => simp [addEntry, htk]
  next htk => simp [htk]

/-! Helper lemmas: each watcher step skips seen eventIds and has the
`StepOK` shape. -/

/-- A BTC candidate whose txid is already seen leaves the state untouched
(the `continue` of line 263). -/
theorem btcStep_seen_mem (cfg : Config) (pr : Coin → ℚ) (sp : SeedParts) (now : ℕ)
    (st : BotState) (tx : BtcTx) (h : tx.txid ∈ st.seen) :
    btcStep cfg pr sp now st tx = st := by
  simp [btcStep, h]

/-- An EVM transaction whose hash is already seen leaves the state untouched
(the `continue` of line 326). -/
theorem evmStep_seen_mem (lbl : Coin) (w : String) (pr : Coin → ℚ) (sp : SeedParts) (now : ℕ)
    (st : BotState) (tx : EvmTx) (h : tx.hash ∈ st.seen) :
    evmStep lbl w pr sp now st tx = st := by
  unfold evmStep
  cases tx.toA with
  | none => rfl
  | some a => split <;> simp [h]

/-- A SOL signature that is already seen leaves the state untouched
(the `continue` of line 387). -/
theorem solStep_seen_mem (w : String) (pr : Coin → ℚ) (sp : SeedParts) (now : ℕ)
    (st : BotState) (sig : SolSigInfo) (h : sig.signature ∈ st.seen) :
    solStep w pr sp now st sig = st := by
  simp [solStep, h]

/-- The BTC step has the `StepOK` shape. -/
theorem btcStep_ok (cfg : Config) (pr : Coin → ℚ) (sp : SeedParts) (now : ℕ) :
    StepOK (btcStep cfg pr sp now) := by
  intro st tx
  simp only [btcStep]
  split
  · left; rfl
  next hseen =>
    split
    · left; rfl
    · by_cases hc : (if tx.statusConfirmed then (1 : ℤ) else 0) < cfg.confBTC
      · left; rw [if_pos hc]
      · right
        refine ⟨Coin.BTC, tx.vinAddr.getD "unknown",
          ((btcOuts cfg.addrBTC tx).map fun v => (v.value : ℚ)).sum / 100000000,
          tx.txid, now, pr, sp, hseen, ?_⟩
        rw [if_neg hc]

/-- The EVM step has the `StepOK` shape. -/
theorem evmStep_ok (lbl : Coin) (w : String) (pr : Coin → ℚ) (sp : SeedParts) (now : ℕ) :
    StepOK (evmStep lbl w pr sp now) := by
  intro st tx
  unfold evmStep
  cases tx.toA with
  | none => left; rfl
  | some a =>
    dsimp only
    by_cases hl : a.toLower ≠ w.toLower
    · left; rw [if_pos hl]
    · by_cases hseen : tx.hash ∈ st.seen
      · left; rw [if_neg hl, if_pos hseen]
      · right
        refine ⟨lbl, tx.fromA.getD "unknown", (tx.value : ℚ) / 1000000000000000000,
          tx.hash, now, pr, sp, hseen, ?_⟩
        rw [if_neg hl, if_neg hseen]

/-- The SOL step has the `StepOK` shape. -/
theorem solStep_ok (w : String) (pr : Coin → ℚ) (sp : SeedParts) (now : ℕ) :
    StepOK (solStep w pr sp now) := by
  intro st sig
  simp only [solStep]
  split
  · left; rfl
  next hseen =>
    cases sig.tx with
    | none => left; rfl
    | some tx =>
      cases hfind : solFind w tx.ixs with
      | none => left; simp [hfind]
      | some p =>
        right
        exact ⟨Coin.SOL, p.source.getD "unknown", (p.lamports : ℚ) / 1000000000,
          sig.signature, now, pr, sp, hseen, by simp [hfind]⟩

end Vault50

namespace Vault50

/-! Helper lemmas: the exactly-once invariant and the frozen-count property
are preserved by every `StepOK` step, hence by every tick and every run. -/

/-- A `StepOK` step preserves the exactly-once invariant. -/
theorem stepOK_exactlyOnce {α : Type} {step : BotState → α → BotState} (hok : StepOK step)
    {st : BotState} (hinv : ExactlyOnce st) (c : α) : ExactlyOnce (step st c) := by
  rcases hok st c with h | ⟨sym, fr, amt, xid, now, pr, sp, hx, h⟩
  · rw [h]; exact hinv
  · rw [h]
    intro id
    have hcnt := entriesWith_creditDeposit sym fr amt xid now pr sp st id
    have hseen := creditDeposit_seen sym fr amt xid now pr sp st
    by_cases hid : xid = id
    · subst hid
      have h0 : entriesWith st xid = 0 := by
        by_contra hne
        exact hx ((hinv xid).2 (Nat.pos_of_ne_zero hne))
      refine ⟨?_, ?_⟩
      · rw [hcnt, h0]; split <;> omega
      · intro _; rw [hseen]; exact List.mem_cons_self _ _
    · refine ⟨?_, ?_⟩
      · rw [hcnt]
        have := (hinv id).1
        simp only [hid, and_false, if_false]
        omega
      · intro hpos
        rw [hseen]
        apply List.mem_cons_of_mem
        apply (hinv id).2
        rw [hcnt] at hpos
        simpa [hid] using hpos

/-- A `StepOK` step neither credits an already-seen eventId again nor
removes it from the seen set. -/
theorem stepOK_frozen {α : Type} {step : BotState → α → BotState} (hok : StepOK step)
    {st : BotState} {id : String} (hid : id ∈ st.seen) (c : α) :
    entriesWith (step st c) id = entriesWith st id ∧ id ∈ (step st c).seen := by
  rcases hok st c with h | ⟨sym, fr, amt, xid, now, pr, sp, hx, h⟩
  · rw [h]; exact ⟨rfl, hid⟩
  · rw [h]
    have hne : xid ≠ id := fun he => hx (he ▸ hid)
    refine ⟨?_, ?_⟩
    · rw [entriesWith_creditDeposit]; simp [hne]
    · rw [creditDeposit_seen]; exact List.mem_cons_of_mem _ hid

/-- Folding a `StepOK` step preserves the exactly-once invariant. -/
theorem foldOK_exactlyOnce {α : Type} {step : BotState → α → BotState} (hok : StepOK step)
    (l : List α) {st : BotState} (hinv : ExactlyOnce st) :
    ExactlyOnce (List.foldl step st l) := by
  induction l generalizing st with
  | nil => exact hinv
  | cons c cs ih => exact ih (stepOK_exactlyOnce hok hinv c)

/-- Folding a `StepOK` step keeps the count of every already-seen eventId. -/
theorem foldOK_frozen {α : Type} {step : BotState → α → BotState} (hok : StepOK step)
    (l : List α) {st : BotState} {id : String} (hid : id ∈ st.seen) :
    entriesWith (List.foldl step st l) id = entriesWith st id
      ∧ id ∈ (List.foldl step st l).seen := by
  induction l generalizing st with
  | nil => exact ⟨rfl, hid⟩
  | cons c cs ih =>
    have h1 := stepOK_frozen hok hid c
    have h2 := ih h1.2
    exact ⟨h2.1.trans h1.1, h2.2⟩

/-- Every watcher tick preserves the exactly-once invariant. -/
theorem applyTick_exactlyOnce (cfg : Config) (s : SysState) (t : TickInput)
    (hinv : ExactlyOnce s.bot) : ExactlyOnce (applyTick cfg s t).bot := by
  cases t with
  | btc items pr sp now =>
    simp only [applyTick, btcTick]
    split
    · exact hinv
    · exact foldOK_exactlyOnce (btcStep_ok cfg pr sp now) _ hinv
  | eth chain tip pr sp now =>
    simp only [applyTick, evmTick]
    split
    · exact hinv
    · exact foldOK_exactlyOnce (evmStep_ok Coin.ETH cfg.addrETH pr sp now) _ hinv
  | bnb chain tip pr sp now =>
    simp only [applyTick, evmTick]
    split
    · exact hinv
    · exact foldOK_exactlyOnce (evmStep_ok Coin.BNB cfg.addrBNB pr sp now) _ hinv
  | sol sigs pr sp now =>
    simp only [applyTick, solTick]
    split
    · exact hinv
    · exact foldOK_exactlyOnce (solStep_ok cfg.addrSOL pr sp now) _ hinv

/-- Every watcher tick keeps the count of every already-seen eventId. -/
theorem applyTick_frozen (cfg : Config) (s : SysState) (t : TickInput) {id : String}
    (hid : id ∈ s.bot.seen) :
    entriesWith (applyTick cfg s t).bot id = entriesWith s.bot id
      ∧ id ∈ (applyTick cfg s t).bot.seen := by
  cases t with
  | btc items pr sp now =>
    simp only [applyTick, btcTick]
    split
    · exact ⟨rfl, hid⟩
    · exact foldOK_frozen (btcStep_ok cfg pr sp now) _ hid
  | eth chain tip pr sp now =>
    simp only [applyTick, evmTick]
    split
    · exact ⟨rfl, hid⟩
    · exact foldOK_frozen (evmStep_ok Coin.ETH cfg.addrETH pr sp now) _ hid
  | bnb chain tip pr sp now =>
    simp only [applyTick, evmTick]
    split
    · exact ⟨rfl, hid⟩
    · exact foldOK_frozen (evmStep_ok Coin.BNB cfg.addrBNB pr sp now) _ hid
  | sol sigs pr sp now =>
    simp only [applyTick, solTick]
    split
    · exact ⟨rfl, hid⟩
    · exact foldOK_frozen (solStep_ok cfg.addrSOL pr sp now) _ hid

/-- A run over any tick sequence preserves the exactly-once invariant. -/
theorem runSystem_exactlyOnce (cfg : Config) (inputs : List TickInput) {s0 : SysState}
    (hinv : ExactlyOnce s0.bot) : ExactlyOnce (runSystem cfg s0 inputs).bot := by
  induction inputs generalizing s0 with
  | nil => exact hinv
  | cons t ts ih => exact ih (applyTick_exactlyOnce cfg s0 t hinv)

/-- A run over any tick sequence keeps the count of every already-seen
eventId. -/
theorem runSystem_frozen (cfg : Config) (inputs : List TickInput) {s0 : SysState} {id : String}
    (hid : id ∈ s0.bot.seen) :
    entriesWith (runSystem cfg s0 inputs).bot id = entriesWith s0.bot id
      ∧ id ∈ (runSystem cfg s0 inputs).bot.seen := by
  induction inputs generalizing s0 with
  | nil => exact ⟨rfl, hid⟩
  | cons t ts ih =>
    have h1 := applyTick_frozen cfg s0 t hid
    have h2 := ih h1.2
    exact ⟨h2.1.trans h1.1, h2.2⟩

/-- The genesis state satisfies the exactly-once invariant. -/
theorem initBot_exactlyOnce (e tgt tol pp : ℚ) : ExactlyOnce (initBot e tgt tol pp) := by
  intro id
  constructor
  · simp [entriesWith, initBot, COINS]
  · intro h
    simp [entriesWith, initBot, COINS] at h

end Vault50

namespace Vault50

/-- C9: if the ticket pool is empty when the draw runs, `runUsdDraw` aborts
without side effects: no winner is selected, no entry or round field is
mutated, the aggregate usdTotal and all rounds are left exactly as they
were (the whole state is returned unchanged), so a retry on the next
target-reached check is safe. -/
theorem C9_empty_pool_draw_no_side_effects (sp : SeedParts) (now : ℕ) (st : BotState)
    (h : buildTicketBag st = []) :
    runUsdDraw sp now st = st := by
  unfold runUsdDraw; simp [h]

/-- Witness for C9 at the genesis state, whose ticket bag is empty. -/
theorem C9_witness :
    buildTicketBag (initBot 50 2000 (1/10) 1) = []
  ∧ runUsdDraw spXYZ 0 (initBot 50 2000 (1/10) 1) = initBot 50 2000 (1/10) 1 :=
  ⟨by decide, C9_empty_pool_draw_no_side_effects spXYZ 0 _ (by decide)⟩

/-- C10: for every incoming command whose sender id is not in `ADMIN_IDS`,
the state-changing handlers leave all round and configuration state
unchanged (the handler returns the state as is), so two runs differing only
in non-admin command input produce identical core state. -/
theorem C10_non_admin_commands_leave_state (adminIds : List ℤ) (senderId : ℤ)
    (cmd cmd2 : Cmd) (now : ℕ) (st : BotState)
    (h : isAdmin adminIds senderId = false) :
    handleCmd adminIds senderId cmd now st = st
  ∧ handleCmd adminIds senderId cmd now st = handleCmd adminIds senderId cmd2 now st := by
  have hmain : ∀ c, handleCmd adminIds senderId c now st = st := by
    intro c; cases c <;> simp [handleCmd, h]
  exact ⟨hmain cmd, (hmain cmd).trans (hmain cmd2).symm⟩

/-- Witness for C10: sender 2 is not in the admin list `[1]`, so
`/restartround` and `/setentryusd` leave the state alone. -/
theorem C10_witness :
    isAdmin [1] 2 = false
  ∧ handleCmd [1] 2 Cmd.restartround 0 stSeen = stSeen
  ∧ handleCmd [1] 2 Cmd.restartround 0 stSeen = handleCmd [1] 2 (Cmd.setentryusd 99) 0 stSeen :=
  ⟨by decide,
   (C10_non_admin_commands_leave_state [1] 2 Cmd.restartround (Cmd.setentryusd 99) 0 stSeen (by decide)).1,
   (C10_non_admin_commands_leave_state [1] 2 Cmd.restartround (Cmd.setentryusd 99) 0 stSeen (by decide)).2⟩

/-- Counterexample to C6 as stated: from the genesis state — aggregate
usdTotal 0 and every roundId 1, i.e. an already-reset round —
`finalizeUsdProofManual` still rotates (roundId becomes 2), and a second
invocation, again from a state with usdTotal 0, rotates once more
(roundId 3).  The claimed guard "rotation only advances if the current
aggregate usdTotal is nonzero or the roundId matches the one being
finalized" does not exist in the code. -/
theorem C6_cex :
    (initBot 50 2000 (1/10) 1).usdTotal = 0
  ∧ ((finalizeUsdProofManual Coin.BTC "t" none 0 (initBot 50 2000 (1/10) 1)).rounds Coin.BTC).id = 2
  ∧ (finalizeUsdProofManual Coin.BTC "t" none 0 (initBot 50 2000 (1/10) 1)).usdTotal = 0
  ∧ ((finalizeUsdProofManual Coin.BTC "t" none 1
        (finalizeUsdProofManual Coin.BTC "t" none 0 (initBot 50 2000 (1/10) 1))).rounds Coin.BTC).id = 3 :=
  ⟨rfl, rfl, rfl, rfl⟩

/-- Amended C6: manual finalization is not idempotent and not guarded —
every invocation of `finalizeUsdProofManual` unconditionally calls
`newRoundAll`, incrementing every ledger's roundId and zeroing the
aggregate usdTotal, so calling it twice rotates twice. -/
theorem C6_amended_finalize_always_rotates (symbol : Coin) (txid : String)
    (amount : Option ℚ) (now : ℕ) (st : BotState) :
    finalizeUsdProofManual symbol txid amount now st = newRoundAll now st
  ∧ (finalizeUsdProofManual symbol txid amount now st).usdTotal = 0
  ∧ ∀ c, ((finalizeUsdProofManual symbol txid amount now st).rounds c).id = (st.rounds c).id + 1 :=
  ⟨rfl, rfl, fun _ => rfl⟩

/-- Counterexample to C2 as stated: on a state that reached the $100 target
with two entries, `runUsdDraw` completes on a non-empty pool yet the BTC
round keeps id 1 and both entries, and the aggregate usdTotal stays 100 —
no new round is opened. -/
theorem C2_cex :
    stTwoEntries.usdTotal = 100
  ∧ stTwoEntries.targetUsd = 100
  ∧ buildTicketBag stTwoEntries ≠ []
  ∧ (runUsdDraw spXYZ 0 stTwoEntries).usdTotal = 100
  ∧ ((runUsdDraw spXYZ 0 stTwoEntries).rounds Coin.BTC).id = 1
  ∧ ((runUsdDraw spXYZ 0 stTwoEntries).rounds Coin.BTC).entries = [entA, entB] := by
  refine ⟨by decide, by decide, by decide, ?_, ?_, ?_⟩
  · rw [runUsdDraw_usdTotal]; decide
  · rw [runUsdDraw_rounds]; decide
  · rw [runUsdDraw_rounds]; decide

/-- Amended C2: `runUsdDraw` does not rotate the round.  On a non-empty
pool it records the draw result but leaves every round, the aggregate
usdTotal and the seen set unchanged; a deposit arriving after the draw is
appended to the same, already-drawn round (same roundId).  Rotation
happens only through `finalizeUsdProofManual` (/proofpaid) or
/restartround. -/
theorem C2_amended_draw_leaves_round_open (sp : SeedParts) (now : ℕ) (st : BotState)
    (h : buildTicketBag st ≠ []) :
    (runUsdDraw sp now st).rounds = st.rounds
  ∧ (runUsdDraw sp now st).usdTotal = st.usdTotal
  ∧ (runUsdDraw sp now st).seen = st.seen
  ∧ (runUsdDraw sp now st).lastDraw.isSome = true
  ∧ ∀ sym ent,
      ((addEntry sym ent (runUsdDraw sp now st)).rounds sym).entries
          = (st.rounds sym).entries ++ [ent]
      ∧ ((addEntry sym ent (runUsdDraw sp now st)).rounds sym).id = (st.rounds sym).id := by
  refine ⟨runUsdDraw_rounds sp now st, runUsdDraw_usdTotal sp now st, runUsdDraw_seen sp now st, ?_, ?_⟩
  · unfold runUsdDraw; simp [h]
  · intro sym ent
    constructor
    · simp [addEntry, runUsdDraw_rounds sp now st]
    · simp [addEntry, runUsdDraw_rounds sp now st]

/-- Witness for C2's amended claim at the two-entry target-reached state. -/
theorem C2_amended_witness :
    buildTicketBag stTwoEntries ≠ []
  ∧ (runUsdDraw spXYZ 0 stTwoEntries).rounds = stTwoEntries.rounds
  ∧ (runUsdDraw spXYZ 0 stTwoEntries).usdTotal = stTwoEntries.usdTotal :=
  ⟨by decide,
   (C2_amended_draw_leaves_round_open spXYZ 0 stTwoEntries (by decide)).1,
   (C2_amended_draw_leaves_round_open spXYZ 0 stTwoEntries (by decide)).2.1⟩

/-- C4: the aggregate usdTotal equals the sum of the usd amounts of all
entries of the open rounds — initially, after every `addEntry`, and after
every `newRoundAll` (which resets it to exactly 0); and `newRoundAll`
gives every ledger's round a strictly greater roundId. -/
theorem C4_usdTotal_matches_entry_sum (e tgt tol pp : ℚ) :
    ((initBot e tgt tol pp).usdTotal = sumUsd (initBot e tgt tol pp))
  ∧ (∀ sym ent st, st.usdTotal = sumUsd st →
      (addEntry sym ent st).usdTotal = sumUsd (addEntry sym ent st))
  ∧ (∀ now st, (newRoundAll now st).usdTotal = sumUsd (newRoundAll now st)
      ∧ (newRoundAll now st).usdTotal = 0
      ∧ ∀ c, (st.rounds c).id < ((newRoundAll now st).rounds c).id) := by
  refine ⟨?_, ?_, ?_⟩
  · simp [initBot, sumUsd, COINS]
  · intro sym ent st h
    rw [sumUsd_addEntry]
    show st.usdTotal + ent.usd = sumUsd st + ent.usd
    rw [h]
  · intro now st
    refine ⟨?_, rfl, fun c => ?_⟩
    · simp [newRoundAll, sumUsd, COINS]
    · simp [newRoundAll]

/-- Witness for C4: the invariant holds at genesis and is preserved by a
concrete `addEntry`. -/
theorem C4_witness :
    (initBot 50 2000 (1/10) 1).usdTotal = sumUsd (initBot 50 2000 (1/10) 1)
  ∧ (addEntry Coin.BTC entA (initBot 50 2000 (1/10) 1)).usdTotal
      = sumUsd (addEntry Coin.BTC entA (initBot 50 2000 (1/10) 1)) :=
  ⟨(C4_usdTotal_matches_entry_sum 50 2000 (1/10) 1).1,
   (C4_usdTotal_matches_entry_sum 50 2000 (1/10) 1).2.1 Coin.BTC entA _
     (by simp [initBot, sumUsd, COINS])⟩

end Vault50

namespace Vault50

/-- C3: `ticketsForUSD` implements the two-tier accrual policy exactly
(here `ticketsPolicySpec`, written from the claim's words), and on
entryUsd = 50, tolerance = 0.10: 47 yields 1 ticket, 25 yields 0,
103 yields 2, and 160 yields 0 (inside neither band). -/
theorem C3_tickets_two_tier_policy (usd e tol : ℚ) (h : 0 ≤ usd) :
    ticketsForUSD usd e tol = ticketsPolicySpec usd e tol
  ∧ ticketsForUSD 47 50 (1/10) = 1
  ∧ ticketsForUSD 25 50 (1/10) = 0
  ∧ ticketsForUSD 103 50 (1/10) = 2
  ∧ ticketsForUSD 160 50 (1/10) = 0 := by
  refine ⟨?_, ?_, ?_, ?_, ?_⟩
  · unfold ticketsForUSD ticketsPolicySpec
    split
    · rfl
    · dsimp only
      split
      · rfl
      · by_cases h1 : 1 ≤ ⌊usd / e⌋ <;>
          by_cases h2 : usd - (⌊usd / e⌋ : ℚ) * e ≤ e * tol <;>
          simp [h1, h2]
  · unfold ticketsForUSD jround; norm_num
  · unfold ticketsForUSD jround; norm_num
  · unfold ticketsForUSD jround; norm_num
  · unfold ticketsForUSD jround; norm_num

/-- Witness for C3 at usdAmount 47. -/
theorem C3_witness :
    (0 : ℚ) ≤ 47
  ∧ ticketsForUSD 47 50 (1/10) = ticketsPolicySpec 47 50 (1/10) :=
  ⟨by norm_num, (C3_tickets_two_tier_policy 47 50 (1/10) (by norm_num)).1⟩

/-- Counterexample to C7 as stated: a confirmed 1-BTC deposit processed on
a tick where the BTC price is 0 IS marked seen (the claim says it must not
be), receives no entry, and is never credited on a later tick after the
price recovers to $50 — the deposit is lost to the price outage. -/
theorem C7_cex :
    prZero Coin.BTC = 0
  ∧ txB1.statusConfirmed = true
  ∧ s7a.bot.seen = ["t1"]
  ∧ entriesWith s7a.bot "t1" = 0
  ∧ entriesWith s7b.bot "t1" = 0
  ∧ s7b.bot.usdTotal = 0 := by
  refine ⟨?_, ?_, ?_, ?_, ?_, ?_⟩ <;>
    simp [s7a, s7b, applyTick, btcTick, cfgBtc, btcStep, txB1, btcOuts, creditDeposit, toUSD,
          round2, jround, ticketsForUSD, reachedUsdTarget, initSys, initBot,
          prZero, prAll50, addEntry, buildTicketBag, COINS, entriesWith] <;>
    norm_num <;>
    decide

/-- The accrual function rejects a zero usd amount whenever the lower
tolerance bound is positive. -/
theorem ticketsForUSD_zero {e tol : ℚ} (h : 0 < e * (1 - tol)) :
    ticketsForUSD 0 e tol = 0 := by
  unfold ticketsForUSD
  rw [if_pos h]

/-- Amended C7: the watchers mark the eventId seen BEFORE the price lookup
(seen.add precedes getPrices in all paths), so an event that passes the
seen/address/confirmation guards on a zero-price tick is added to the seen
set while no entry is created and the aggregate total is unchanged — the
deposit is permanently consumed without credit, not retried.  Shown for the
BTC step and for the EVM step. -/
theorem C7_amended_zero_price_marks_seen
    (cfg : Config) (pr : Coin → ℚ) (sp : SeedParts) (now : ℕ) (st : BotState) (tx : BtcTx)
    (he : 0 < st.entryUsd * (1 - st.entryTol))
    (hp : pr Coin.BTC = 0)
    (h1 : tx.txid ∉ st.seen)
    (h2 : btcOuts cfg.addrBTC tx ≠ [])
    (h3 : ¬((if tx.statusConfirmed then (1 : ℤ) else 0) < cfg.confBTC)) :
    ((btcStep cfg pr sp now st tx).seen = tx.txid :: st.seen
      ∧ (∀ id, entriesWith (btcStep cfg pr sp now st tx) id = entriesWith st id)
      ∧ (btcStep cfg pr sp now st tx).usdTotal = st.usdTotal)
  ∧ (∀ (lbl : Coin) (w : String) (etx : EvmTx) (a : String),
      pr lbl = 0 → etx.toA = some a → ¬(a.toLower ≠ w.toLower) → etx.hash ∉ st.seen →
        (evmStep lbl w pr sp now st etx).seen = etx.hash :: st.seen
      ∧ (∀ id, entriesWith (evmStep lbl w pr sp now st etx) id = entriesWith st id)
      ∧ (evmStep lbl w pr sp now st etx).usdTotal = st.usdTotal) := by
  have hzero : ∀ (sym : Coin) (amt : ℚ), pr sym = 0 →
      ticketsForUSD (toUSD sym amt pr) st.entryUsd st.entryTol = 0 := by
    intro sym amt hps
    have : toUSD sym amt pr = 0 := by
      simp [toUSD, hps, round2, jround]
      norm_num
    rw [this]
    exact ticketsForUSD_zero he
  constructor
  · have hred : btcStep cfg pr sp now st tx
        = creditDeposit Coin.BTC (tx.vinAddr.getD "unknown")
            (((btcOuts cfg.addrBTC tx).map fun v => (v.value : ℚ)).sum / 100000000)
            tx.txid now pr sp st := by
      simp only [btcStep]
      rw [if_neg h1, if_neg h2, if_neg h3]
    rw [hred]
    refine ⟨creditDeposit_seen _ _ _ _ _ _ _ _, ?_, ?_⟩
    · intro id
      rw [entriesWith_creditDeposit]
      simp [hzero Coin.BTC _ hp]
    · rw [usdTotal_creditDeposit]
      simp [hzero Coin.BTC _ hp]
  · intro lbl w etx a hpl htoA hlow hseen
    have hred : evmStep lbl w pr sp now st etx
        = creditDeposit lbl (etx.fromA.getD "unknown") ((etx.value : ℚ) / 1000000000000000000)
            etx.hash now pr sp st := by
      unfold evmStep
      rw [htoA]
      dsimp only
      rw [if_neg hlow, if_neg hseen]
    rw [hred]
    refine ⟨creditDeposit_seen _ _ _ _ _ _ _ _, ?_, ?_⟩
    · intro id
      rw [entriesWith_creditDeposit]
      simp [hzero lbl _ hpl]
    · rw [usdTotal_creditDeposit]
      simp [hzero lbl _ hpl]

/-- Witness for C7's amended claim: concrete zero-price BTC and ETH
deposits are marked seen with no entry and no total change. -/
theorem C7_amended_witness :
    (btcStep cfgBtc prZero spXYZ 0 (initBot 50 2000 (1/10) 1) txB1).seen
        = txB1.txid :: (initBot 50 2000 (1/10) 1).seen
  ∧ entriesWith (btcStep cfgBtc prZero spXYZ 0 (initBot 50 2000 (1/10) 1) txB1) "t1"
        = entriesWith (initBot 50 2000 (1/10) 1) "t1"
  ∧ (btcStep cfgBtc prZero spXYZ 0 (initBot 50 2000 (1/10) 1) txB1).usdTotal
        = (initBot 50 2000 (1/10) 1).usdTotal
  ∧ (evmStep Coin.ETH "E" prZero spXYZ 0 (initBot 50 2000 (1/10) 1) txE1).seen
        = txE1.hash :: (initBot 50 2000 (1/10) 1).seen := by
  have h := C7_amended_zero_price_marks_seen cfgBtc prZero spXYZ 0 (initBot 50 2000 (1/10) 1) txB1
    (by norm_num [initBot]) rfl (by decide) (by decide) (by decide)
  exact ⟨h.1.1, h.1.2.1 "t1", h.1.2.2,
    (h.2 Coin.ETH "E" txE1 "E" rfl rfl (fun hne => hne rfl) (by decide)).1⟩

end Vault50

namespace Vault50

/-- Every block number the EVM tick scans is at most `tip - conf + 1`. -/
theorem evmScanRange_le {lastBlock tip conf bn : ℤ}
    (h : bn ∈ evmScanRange lastBlock tip conf) : bn ≤ tip - conf + 1 := by
  unfold evmScanRange at h
  simp only [List.mem_map, List.mem_range] at h
  obtain ⟨i, hi, hbn⟩ := h
  generalize hA : max ((if lastBlock = 0 then tip - 3 else lastBlock) + 1) (tip - 6) = a at hi hbn
  omega

/-- Amended C8, for the paths that do gate on confirmation: a BTC candidate
whose confirmed flag is false is skipped entirely when the threshold is at
least 1 — the state (seen set, entries, totals) is untouched, and since
pollBTC re-fetches the full recent window each tick the candidate is
re-examined later; an EVM block holding an insufficiently confirmed
transaction (depth `tip - bn + 1 < conf`) is outside the scanned range and
strictly above the new cursor `tip - conf + 1`, so the cursor does not
advance past it.  (The SOL watcher enforces no threshold at all — see the
counterexample.) -/
theorem C8_amended_confirmation_gating
    (cfg : Config) (pr : Coin → ℚ) (sp : SeedParts) (now : ℕ) (st : BotState) (tx : BtcTx)
    (hconf : tx.statusConfirmed = false) (hthr : 1 ≤ cfg.confBTC) :
    btcStep cfg pr sp now st tx = st
  ∧ (∀ lastBlock tip conf bn : ℤ, tip - bn + 1 < conf →
      bn ∉ evmScanRange lastBlock tip conf ∧ tip - conf + 1 < bn) := by
  constructor
  · simp only [btcStep]
    split
    · rfl
    · split
      · rfl
      · have hc : (if tx.statusConfirmed then (1 : ℤ) else 0) < cfg.confBTC := by
          rw [hconf]
          simp
          omega
        rw [if_pos hc]
  · intro lastBlock tip conf bn hd
    refine ⟨fun hmem => ?_, by omega⟩
    have := evmScanRange_le hmem
    omega

/-- Witness for C8's amended claim: a concrete unconfirmed BTC candidate is
skipped, and block 99 with depth 2 under threshold 3 at tip 100 is outside
the scan range and above the new cursor. -/
theorem C8_amended_witness :
    txB2.statusConfirmed = false
  ∧ (1 : ℤ) ≤ cfgBtc.confBTC
  ∧ btcStep cfgBtc prAll50 spXYZ 0 (initBot 50 2000 (1/10) 1) txB2 = initBot 50 2000 (1/10) 1
  ∧ (99 : ℤ) ∉ evmScanRange 0 100 3
  ∧ (100 : ℤ) - 3 + 1 < 99 :=
  ⟨rfl, by decide,
   (C8_amended_confirmation_gating cfgBtc prAll50 spXYZ 0 _ txB2 rfl (by decide)).1,
   ((C8_amended_confirmation_gating cfgBtc prAll50 spXYZ 0 (initBot 50 2000 (1/10) 1) txB2 rfl
      (by decide)).2 0 100 3 99 (by decide)).1,
   ((C8_amended_confirmation_gating cfgBtc prAll50 spXYZ 0 (initBot 50 2000 (1/10) 1) txB2 rfl
      (by decide)).2 0 100 3 99 (by decide)).2⟩

/-- Counterexample to C8 as stated: with `CONFIRMS_SOL = 2` configured, a
SOL transfer whose signature record reports confirmation depth 1 is
credited on the very tick it is fetched (`pollSOL` never consults any
confirmation threshold), and the cursor jumps to the newest fetched
signature "sig2" even though that signature was never processed (its
parsed transaction was unavailable) and is not in the seen set — it will
not be re-examined, because the next fetch asks only for signatures before
"sig2". -/
theorem C8_cex :
    cfgSol2.confSOL = 2
  ∧ sigSol1.confirmations = some 1
  ∧ entriesWith s8.bot "sig1" = 1
  ∧ s8.lastSolSig = some "sig2"
  ∧ "sig2" ∉ s8.bot.seen
  ∧ entriesWith s8.bot "sig2" = 0 := by
  refine ⟨rfl, rfl, ?_, ?_, ?_, ?_⟩ <;>
    simp [s8, applyTick, solTick, cfgSol2, solStep, sigSol1, sigSolSkip, solFind, creditDeposit,
          toUSD, round2, jround, ticketsForUSD, reachedUsdTarget, initSys, initBot,
          prOne, addEntry, buildTicketBag, COINS, entriesWith] <;>
    norm_num <;>
    decide

end Vault50

namespace Vault50

set_option maxRecDepth 100000 in
/-- Counterexample to C5 as stated: at the reachable two-entry $100 round,
the seed digest starts `069f0db699562acf`, whose exact big-endian value is
477115163432331983 — an odd number, so the claim's "interpreted as a
big-endian unsigned integer modulo the pool length" selects index 1 of the
2-ticket pool, i.e. entB.  But the source computes
`parseInt(h.slice(0, 16), 16)` as a JS double: the value is rounded to
53-bit precision, giving 477115163432331968, an even number — the program
selects index 0 and stores entA as the winner.  The claimed index formula
is false of the program. -/
theorem C5_cex :
    buildTicketBag stTwoEntries = [⟨Coin.BTC, entA⟩, ⟨Coin.BTC, entB⟩]
  ∧ sha256HexOfString (seedMaterialString spXYZ
      ((buildTicketBag stTwoEntries).map fun b => b.entry.txid) stTwoEntries.usdTotal)
      = "069f0db699562acff1e1ee99f32980476fade367ace16dc47206c8749586ebdc"
  ∧ parseHexNat "069f0db699562acf" = 477115163432331983
  ∧ parseHexJS "069f0db699562acf" = 477115163432331968
  ∧ parseHexNat "069f0db699562acf" % 2 = 1
  ∧ parseHexJS "069f0db699562acf" % 2 = 0
  ∧ (runUsdDraw spXYZ 0 stTwoEntries).lastDraw = some ⟨spXYZ, 2,
      "069f0db699562acff1e1ee99f32980476fade367ace16dc47206c8749586ebdc",
      ⟨Coin.BTC, entA⟩, 0⟩
  ∧ (buildTicketBag stTwoEntries).getD (parseHexNat "069f0db699562acf" % 2) default
      = ⟨Coin.BTC, entB⟩ := by
  have hj : jround ((100 : ℚ) * 100) = 10000 := by norm_num [jround]
  have hs : seedMaterialString spXYZ ["ta", "tb"] (100 : ℚ)
      = "\x7b\"seed\":\x7b\"btcHead\":\"x\",\"ethHead\":\"y\",\"solSlot\":\"z\"\x7d,\"txids\":[\"ta\",\"tb\"],\"totalUsd\":\"100.00\"\x7d" := by
    simp only [seedMaterialString, toFixed2, hj]
    decide
  have htx : (buildTicketBag stTwoEntries).map (fun b => b.entry.txid) = ["ta", "tb"] := by
    decide
  have htot : stTwoEntries.usdTotal = (100 : ℚ) := rfl
  have hd : sha256HexOfString
      "\x7b\"seed\":\x7b\"btcHead\":\"x\",\"ethHead\":\"y\",\"solSlot\":\"z\"\x7d,\"txids\":[\"ta\",\"tb\"],\"totalUsd\":\"100.00\"\x7d"
      = "069f0db699562acff1e1ee99f32980476fade367ace16dc47206c8749586ebdc" := by
    decide
  have hne : buildTicketBag stTwoEntries ≠ [] := by decide
  refine ⟨by decide, ?_, by decide, by decide, by decide, by decide, ?_, by decide⟩
  · rw [htx, htot, hs, hd]
  · simp only [runUsdDraw]
    rw [if_neg hne, htx, htot, hs, hd]
    decide

/-- Amended C5: on a non-empty ticket pool the draw computes the seed
digest as the SHA-256 hex digest of the canonical JSON serialization of
the entropy, the ordered list of contributing eventIds and the usdTotal
rendered to two decimals; the selected index is the first 16 hex
characters of the digest parsed by `parseInt` — that is, the big-endian
unsigned integer ROUNDED TO THE NEAREST 53-BIT DOUBLE (ties to even), not
the exact 64-bit value — modulo the pool length, hence in
`[0, poolLength)`; the winner is the pool element at that index; and two
runs on an identical pool, identical usdTotal and identical entropy
produce the same digest, index and winner. -/
theorem C5_amended_deterministic_draw (sp : SeedParts) (now : ℕ) (st : BotState)
    (h : buildTicketBag st ≠ []) :
    let bag := buildTicketBag st
    let dg := sha256HexOfString (seedMaterialString sp (bag.map fun b => b.entry.txid) st.usdTotal)
    let idx := parseHexJS (dg.take 16) % bag.length
    (idx < bag.length)
  ∧ (runUsdDraw sp now st).lastDraw = some ⟨sp, bag.length, dg, bag.getD idx default, now⟩
  ∧ (∀ (now2 : ℕ) (st2 : BotState), buildTicketBag st2 = bag → st2.usdTotal = st.usdTotal →
      (runUsdDraw sp now2 st2).lastDraw = some ⟨sp, bag.length, dg, bag.getD idx default, now2⟩)
  ∧ (∀ hlt : parseHexJS ((sha256HexOfString (seedMaterialString sp
        ((buildTicketBag st).map fun b => b.entry.txid) st.usdTotal)).take 16)
          % (buildTicketBag st).length < (buildTicketBag st).length,
      bag.getD idx default = bag.get ⟨idx, hlt⟩) := by
  dsimp only
  refine ⟨?_, ?_, ?_, ?_⟩
  · exact Nat.mod_lt _ (List.length_pos.mpr h)
  · unfold runUsdDraw
    rw [if_neg h]
  · intro now2 st2 hbag htotal
    unfold runUsdDraw
    rw [hbag, htotal, if_neg h]
  · intro hlt
    simp [List.getD_eq_getElem, hlt, List.get_eq_getElem]

/-- Witness for C5's amended claim at the two-entry target-reached state. -/
theorem C5_amended_witness :
    buildTicketBag stTwoEntries ≠ []
  ∧ (let bag := buildTicketBag stTwoEntries
     let dg := sha256HexOfString (seedMaterialString spXYZ (bag.map fun b => b.entry.txid)
                 stTwoEntries.usdTotal)
     let idx := parseHexJS (dg.take 16) % bag.length
     (idx < bag.length)
     ∧ (runUsdDraw spXYZ 0 stTwoEntries).lastDraw
         = some ⟨spXYZ, bag.length, dg, bag.getD idx default, 0⟩) :=
  ⟨by decide,
   ⟨(C5_amended_deterministic_draw spXYZ 0 stTwoEntries (by decide)).1,
    (C5_amended_deterministic_draw spXYZ 0 stTwoEntries (by decide)).2.1⟩⟩

/-- C1: exactly-once crediting.  Over any tick sequence from genesis, no
eventId is ever reflected in two entries (its count is at most 1); once an
eventId is in the seen set, any further ticks leave its entry count
unchanged and keep it seen; and re-delivery of an already-seen candidate to
any of the three watcher steps leaves the whole state — entries, aggregate
usdTotal, everything — untouched. -/
theorem C1_exactly_once_crediting
    (cfg : Config) (e tgt tol pp : ℚ) (inputs post : List TickInput) (id : String)
    (s0 : SysState) (st : BotState) (tx : BtcTx) (etx : EvmTx) (sg : SolSigInfo)
    (pr : Coin → ℚ) (sp : SeedParts) (now : ℕ) (lbl : Coin) (wEvm wSol : String) :
    entriesWith (runSystem cfg (initSys e tgt tol pp) inputs).bot id ≤ 1
  ∧ (id ∈ s0.bot.seen →
      entriesWith (runSystem cfg s0 post).bot id = entriesWith s0.bot id
        ∧ id ∈ (runSystem cfg s0 post).bot.seen)
  ∧ (tx.txid ∈ st.seen → btcStep cfg pr sp now st tx = st)
  ∧ (etx.hash ∈ st.seen → evmStep lbl wEvm pr sp now st etx = st)
  ∧ (sg.signature ∈ st.seen → solStep wSol pr sp now st sg = st) := by
  refine ⟨?_, ?_, ?_, ?_, ?_⟩
  · exact (runSystem_exactlyOnce cfg inputs (initBot_exactlyOnce e tgt tol pp) id).1
  · intro hid
    exact runSystem_frozen cfg post hid
  · exact btcStep_seen_mem cfg pr sp now st tx
  · exact evmStep_seen_mem lbl wEvm pr sp now st etx
  · exact solStep_seen_mem wSol pr sp now st sg

/-- Witness for C1: eventId "t1" already seen stays credited at most its
current count over a further BTC tick, and re-delivery to each watcher step
is a no-op. -/
theorem C1_witness :
    "t1" ∈ (⟨stSeen, 0, 0, none⟩ : SysState).bot.seen
  ∧ (entriesWith (runSystem cfgBtc ⟨stSeen, 0, 0, none⟩ [TickInput.btc [txB1] prAll50 spXYZ 0]).bot "t1"
       = entriesWith stSeen "t1"
     ∧ "t1" ∈ (runSystem cfgBtc ⟨stSeen, 0, 0, none⟩ [TickInput.btc [txB1] prAll50 spXYZ 0]).bot.seen)
  ∧ btcStep cfgBtc prAll50 spXYZ 0 stSeen txB1 = stSeen
  ∧ evmStep Coin.ETH "E" prAll50 spXYZ 0 stSeen txE1 = stSeen
  ∧ solStep "W" prAll50 spXYZ 0 stSeen sigSol1 = stSeen := by
  have h := C1_exactly_once_crediting cfgBtc 50 2000 (1/10) 1 []
    [TickInput.btc [txB1] prAll50 spXYZ 0] "t1" ⟨stSeen, 0, 0, none⟩ stSeen txB1 txE1 sigSol1
    prAll50 spXYZ 0 Coin.ETH "E" "W"
  exact ⟨by decide, h.2.1 (by decide), h.2.2.1 (by decide), h.2.2.2.1 (by decide),
    h.2.2.2.2 (by decide)⟩

end Vault50
